import Mathlib

/-!
Verification of the janus gateway's provider adapter and protocol
transpilation layer against its natural-language specification.

The definitions below are shallow embeddings of the TypeScript sources:

* `OpenAITranspiler` (src/unnamed/part_000) and `GoogleTranspiler`
  (src/unnamed/part_001, src/unnamed/part_002): finish-reason mapping,
  response conversion, and the streaming event generator;
* `convertRequest` of src/src/transpilers/openai.ts and google.ts;
* `TokenStore` (src/src/auth/token-store.ts and the revised
  src/unnamed/part_003 constructor);
* `OpenAIAuth.getValidToken` / `GoogleAuth.getValidToken` (src/src/index.ts);
* `ProviderFactory.getAdapter` and the adapters' `supports` predicates
  (src/unnamed/part_005, src/unnamed/part_004,
  src/src/services/providers/openai.adapter.ts).

JavaScript strings are modelled by `String` (or `List Char` where the
line-buffering logic splits on newlines), JavaScript numbers by `Int`
(only presence and comparisons matter to the claims), absent / `undefined`
values by `Option`, and thrown errors by `Except`.  JavaScript truthiness
tests on strings and numbers are translated explicitly (`""` and `0` are
falsy).  `JSON.parse` together with field extraction is abstracted as a
function producing the parsed chunk shape, since its output is consumed
only through the fields the source reads.
-/

namespace Janus

/-! ## Generic list helpers (executable, used by the stream models) -/

/-- Concatenation of the per-element event lists, in order (the shape of a
generator loop that yields several events per processed item). -/
def joinMap {α β : Type} (f : α → List β) : List α → List β
  | [] => []
  | a :: l => f a ++ joinMap f l

/-- All elements of the list except the last (the lines processed in one
read; JavaScript `lines.pop()` removes the last element). -/
def frontOf {α : Type} : List α → List α
  | [] => []
  | [_] => []
  | a :: b :: l => a :: frontOf (b :: l)

/-- The last element of a list of character lists, `[]` (the empty string)
when the list is empty — exactly `lines.pop() || ""`. -/
def lastOf : List (List Char) → List Char
  | [] => []
  | [a] => a
  | _ :: b :: l => lastOf (b :: l)

/-- Apply a function to the last element of a list, leaving the rest. -/
def modLast (f : List Char → List Char) : List (List Char) → List (List Char)
  | [] => []
  | [a] => [f a]
  | a :: b :: l => a :: modLast f (b :: l)

/-! ## Splitting a character stream on newlines

`buffer.split('\n')` of JavaScript: `splitNl "" = [[]]`, a trailing
newline yields a trailing empty string, and the separator itself is
dropped. -/

/-- One step of the newline split, processing a single character in front
of an already split suffix. -/
def splitStep (c : Char) (acc : List (List Char)) : List (List Char) :=
  if c = '\n' then [] :: acc
  else
    match acc with
    | [] => [[c]]
    | h :: t => (c :: h) :: t

/-- JavaScript `s.split('\n')` on a decoded character list. -/
def splitNl (s : List Char) : List (List Char) :=
  s.foldr splitStep [[]]

/-! ## Canonical stream events

One constructor per canonical event name, carrying the payload fields the
transpilers actually fill in. -/

/-- A canonical (Anthropic-format) stream event. -/
inductive AEvent : Type
  | messageStart : AEvent
  | contentBlockStart : AEvent
  | contentBlockDelta (text : String) : AEvent
  | contentBlockStop : AEvent
  | messageDelta (stopReason : Option String) (outputTokens : Nat) : AEvent
  | messageStop : AEvent
deriving DecidableEq, Repr

/-- The `event:` name of a canonical stream event frame. -/
def evName : AEvent → String
  | .messageStart => "message_start"
  | .contentBlockStart => "content_block_start"
  | .contentBlockDelta _ => "content_block_delta"
  | .contentBlockStop => "content_block_stop"
  | .messageDelta _ _ => "message_delta"
  | .messageStop => "message_stop"

/-- The sequence of event names of a sequence of events. -/
def evNames (l : List AEvent) : List String :=
  l.map evName

/-- The ordering invariant of section 3 of the spec: exactly one
`message_start`, one `content_block_start`, zero or more
`content_block_delta`, then exactly one `content_block_stop`, one
`message_delta` and one `message_stop`, in that order. -/
def canonicalOrder (ns : List String) : Prop :=
  ∃ k, ns = ["message_start", "content_block_start"]
        ++ List.replicate k "content_block_delta"
        ++ ["content_block_stop", "message_delta", "message_stop"]

/-! ## OpenAI transpiler (src/unnamed/part_000) -/

/-- `OpenAITranspiler.mapFinishReason` (part_000 lines 151-166).
`none` models `undefined`; the leading test `if (!finishReason) return
null` is falsy for `undefined` and for the empty string; the `switch`
default returns the incoming string unchanged. -/
def oaMapFinishReason : Option String → Option String
  | none => none
  | some r =>
    if r = "" then none
    else if r = "stop" then some "end_turn"
    else if r = "length" then some "max_tokens"
    else if r = "tool_calls" ∨ r = "function_call" then some "tool_use"
    else if r = "content_filter" then some "refusal"
    else some r

/-- The fields of a parsed OpenAI SSE chunk that `convertStreamResponse`
reads: `parsed.choices?.[0]?.delta?.content` and
`parsed.choices?.[0]?.finish_reason`. -/
structure OAChunk : Type where
  deltaContent : Option String
  finishReason : Option String
deriving DecidableEq, Repr

/-- Truthiness of `delta?.content` for a chunk. -/
def oaHasDelta (c : OAChunk) : Bool :=
  match c.deltaContent with
  | some t => t ≠ ""
  | none => false

/-- Truthiness of `choices?.[0]?.finish_reason` for a chunk. -/
def oaHasFinish (c : OAChunk) : Bool :=
  match c.finishReason with
  | some r => r ≠ ""
  | none => false

/-- Events emitted for the incremental-text part of one chunk
(part_000 lines 254-264): a `content_block_delta` at index 0 when
`delta?.content` is truthy. -/
def oaDeltaEvents (c : OAChunk) : List AEvent :=
  match c.deltaContent with
  | some t => if t ≠ "" then [.contentBlockDelta t] else []
  | none => []

/-- Events emitted for the finish-reason part of one chunk (part_000
lines 267-290): `content_block_stop`, `message_delta` (mapped stop
reason, output tokens hard-coded to 0) and `message_stop` whenever the
chunk carries a truthy `finish_reason` — with no guard against this
having fired already. -/
def oaFinishEvents (c : OAChunk) : List AEvent :=
  match c.finishReason with
  | some r =>
      if r ≠ "" then
        [.contentBlockStop, .messageDelta (oaMapFinishReason (some r)) 0, .messageStop]
      else []
  | none => []

/-- All events emitted while processing one parsed chunk, delta part
first, then finish part (source order). -/
def oaChunkEvents (c : OAChunk) : List AEvent :=
  oaDeltaEvents c ++ oaFinishEvents c

/-- `OpenAITranspiler.convertStreamResponse` at the level of the parsed
chunk sequence: `message_start` and `content_block_start` are emitted
before any upstream data, then each parsed chunk contributes its
events. -/
def oaStreamEvents (cs : List OAChunk) : List AEvent :=
  [.messageStart, .contentBlockStart] ++ joinMap oaChunkEvents cs

/-- The fields of a parsed non-streaming OpenAI response body that
`convertResponse` reads. -/
structure OAResp : Type where
  id : String
  model : Option String
  content : Option String
  finishReason : Option String
  promptTokens : Option Nat
  completionTokens : Option Nat
deriving DecidableEq, Repr

/-- The canonical (Anthropic-format) non-streaming response produced by
the transpilers; `content` is a single text block, so only its text is
kept. -/
structure AResponse : Type where
  id : String
  model : String
  text : String
  stop_reason : Option String
  input_tokens : Nat
  output_tokens : Nat
deriving DecidableEq, Repr

/-- `OpenAITranspiler.convertResponse` (part_000 lines 171-193), with the
response body already parsed.  `data.model || model` and
`...content || ''` are JavaScript truthy selections, `usage` counts
default to 0. -/
def oaConvertResponse (d : OAResp) (model : String) : AResponse where
  id := d.id
  model := match d.model with
    | some m => if m ≠ "" then m else model
    | none => model
  text := match d.content with
    | some c => c
    | none => ""
  stop_reason := oaMapFinishReason d.finishReason
  input_tokens := d.promptTokens.getD 0
  output_tokens := d.completionTokens.getD 0

/-! ## Google transpiler (src/unnamed/part_001 and part_002) -/

/-- `GoogleTranspiler.mapFinishReason` (part_001 lines 469-487, identical
in part_002 lines 170-188): every unlisted reason falls to the default
branch returning `end_turn`. -/
def gMapFinishReason : Option String → Option String
  | none => none
  | some r =>
    if r = "" then none
    else if r = "STOP" ∨ r = "FINISHED" then some "end_turn"
    else if r = "MAX_TOKENS" then some "max_tokens"
    else if r = "STOP_SEQUENCE" then some "stop_sequence"
    else if r = "SAFETY" ∨ r = "RECITATION" then some "refusal"
    else if r = "INTERRUPTED" then some "end_turn"
    else some "end_turn"

/-- One element of `candidates[0].content?.parts` of a Gemini chunk. -/
structure GPart : Type where
  text : Option String
deriving DecidableEq, Repr

/-- One element of `candidates` of a Gemini chunk; `parts` is
`content?.parts` (absent content or absent parts are both `none`). -/
structure GCand : Type where
  parts : Option (List GPart)
  finishReason : Option String
deriving DecidableEq, Repr

/-- The fields of one parsed Gemini SSE chunk (after unwrapping the
Antigravity `response` envelope) that the stream converter reads. -/
structure GChunk : Type where
  candidates : Option (List GCand)
  usageTokens : Option Nat
deriving DecidableEq, Repr

/-- Truthiness of `parts && parts.length > 0 && parts[0].text` for the
first candidate of a chunk. -/
def gHasDelta (c : GChunk) : Bool :=
  match c.candidates with
  | some (cand :: _) =>
      match cand.parts with
      | some (p :: _) =>
          (match p.text with
           | some t => t ≠ ""
           | none => false)
      | _ => false
  | _ => false

/-- Truthiness of `candidates[0].finishReason` for a chunk. -/
def gHasFinish (c : GChunk) : Bool :=
  match c.candidates with
  | some (cand :: _) =>
      (match cand.finishReason with
       | some r => r ≠ ""
       | none => false)
  | _ => false

/-- Events emitted while processing one parsed Gemini chunk
(part_001 lines 540-582): nothing without a first candidate; a
`content_block_delta` when the first part carries truthy text; the
closing triple whenever `finishReason` is truthy, with the output token
count taken from `usageMetadata?.candidatesTokenCount || 0` — again with
no guard against a repeated finish. -/
def gChunkEvents (c : GChunk) : List AEvent :=
  match c.candidates with
  | some (cand :: _) =>
      (match cand.parts with
       | some (p :: _) =>
           (match p.text with
            | some t => if t ≠ "" then [.contentBlockDelta t] else []
            | none => [])
       | _ => []) ++
      (match cand.finishReason with
       | some r =>
           if r ≠ "" then
             [.contentBlockStop,
              .messageDelta (gMapFinishReason (some r)) (c.usageTokens.getD 0),
              .messageStop]
           else []
       | none => [])
  | _ => []

/-- `GoogleTranspiler.convertStreamResponse` at the level of the parsed
chunk sequence. -/
def gStreamEvents (cs : List GChunk) : List AEvent :=
  [.messageStart, .contentBlockStart] ++ joinMap gChunkEvents cs

/-- The fields of a parsed non-streaming Gemini response (after
unwrapping the envelope) that `convertResponse` reads. -/
structure GResp : Type where
  content : Option String
  finishReason : Option String
  promptTokens : Option Nat
  candidatesTokens : Option Nat
deriving DecidableEq, Repr

/-- `GoogleTranspiler.convertResponse` (part_002 lines 193-217,
part_001 lines 435-464); the random message id is passed in as `msgId`. -/
def gConvertResponse (msgId : String) (d : GResp) (model : String) : AResponse where
  id := msgId
  model := model
  text := match d.content with
    | some c => c
    | none => ""
  stop_reason := gMapFinishReason d.finishReason
  input_tokens := d.promptTokens.getD 0
  output_tokens := d.candidatesTokens.getD 0

/-! ## Line-buffered stream reading (src/unnamed/part_000 lines 235-296)

The byte stream is modelled after text decoding: each network read
delivers a list of characters.  The converter appends the read to the
carry-over buffer, splits on newlines, keeps the final (possibly
incomplete) line as the next buffer, and processes every complete line.
On `done` the remaining buffer is discarded.  `JSON.parse` plus field
extraction is the `parse` parameter; `none` models a parse failure, which
is logged and skipped. -/

/-- The characters of the `data: ` line marker. -/
def dataMarker : List Char := "data: ".toList

/-- The characters of the `data: [DONE]` sentinel line. -/
def doneLine : List Char := "data: [DONE]".toList

/-- Processing of one complete line (part_000 lines 244-294): skip blank
lines, comment lines beginning with a colon, and the termination
sentinel; parse the payload of a `data: ` line and emit that chunk's
events; a parse failure emits nothing. -/
def lineEvents (parse : List Char → Option OAChunk) (line : List Char) : List AEvent :=
  if line.all (fun ch => ch.isWhitespace) then []
  else if line.head? = some ':' then []
  else if line = doneLine then []
  else if dataMarker.isPrefixOf line then
    match parse (line.drop 6) with
    | some c => oaChunkEvents c
    | none => []
  else []

/-- The read loop of `convertStreamResponse`: one recursive step per
network read, carrying the unterminated final line across reads. -/
def oaGo (parse : List Char → Option OAChunk) : List Char → List (List Char) → List AEvent
  | _, [] => []
  | buffer, c :: cs =>
      joinMap (lineEvents parse) (frontOf (splitNl (buffer ++ c)))
        ++ oaGo parse (lastOf (splitNl (buffer ++ c))) cs

/-- `OpenAITranspiler.convertStreamResponse` over a list of decoded
network reads: the two opening events, then the buffered line loop
starting from an empty buffer. -/
def oaStreamString (parse : List Char → Option OAChunk) (reads : List (List Char)) : List AEvent :=
  [.messageStart, .contentBlockStart] ++ oaGo parse [] reads

/-! ## Canonical request conversion (src/src/transpilers/openai.ts and
google.ts; the message loop is identical in part_000 / part_002) -/

/-- A canonical message role. -/
inductive Role : Type
  | user
  | assistant
deriving DecidableEq, Repr

/-- One typed content block of a canonical message; `text` is optional
because the source checks `block.text` for truthiness. -/
structure CBlock : Type where
  type : String
  text : Option String
deriving DecidableEq, Repr

/-- The shape of canonical message content: a string, an array of typed
blocks, or anything else (which the source rejects). -/
inductive MsgContent : Type
  | str (s : String)
  | blocks (bs : List CBlock)
  | other
deriving DecidableEq, Repr

/-- A canonical message. -/
structure AMessage : Type where
  role : Role
  content : MsgContent
deriving DecidableEq, Repr

/-- A canonical request, optional fields as `Option` (absent =
`undefined`).  `system` is a plain string in the revisions under
src/src/transpilers. -/
structure ARequest : Type where
  model : String
  messages : List AMessage
  max_tokens : Option Int
  temperature : Option Int
  top_p : Option Int
  stream : Option Bool
  system : Option String
deriving DecidableEq, Repr

/-- Whether a content block survives the filter
`block.type === 'text' && block.text`. -/
def blockKept (b : CBlock) : Bool :=
  b.type = "text" &&
    (match b.text with
     | some t => t ≠ ""
     | none => false)

/-- Flattening of canonical message content (openai.ts lines 52-65,
google.ts lines 47-60): strings verbatim, arrays reduced to the
newline-join of the kept blocks' texts, anything else a
`TranspilerError`. -/
def flattenContent : MsgContent → Except String String
  | .str s => .ok s
  | .blocks bs =>
      .ok (String.intercalate "\n" ((bs.filter blockKept).map (fun b => b.text.getD "")))
  | .other => .error "Unsupported message content format"

/-- The message loop of `convertRequest`: convert every message in order,
aborting on the first flattening error; `mk` builds the provider message
from role and flattened text. -/
def convMessagesWith {γ : Type} (mk : Role → String → γ) : List AMessage → Except String (List γ)
  | [] => .ok []
  | m :: rest =>
      match flattenContent m.content with
      | .error e => .error e
      | .ok c =>
          match convMessagesWith mk rest with
          | .error e => .error e
          | .ok others => .ok (mk m.role c :: others)

/-- An outgoing OpenAI chat message. -/
structure OAIMessage : Type where
  role : String
  content : String
deriving DecidableEq, Repr

/-- An outgoing OpenAI request payload; a field holding `none` is absent
from the serialized JSON. -/
structure OAIRequest : Type where
  model : String
  messages : List OAIMessage
  max_tokens : Option Int
  temperature : Option Int
  top_p : Option Int
  stream : Option Bool
deriving DecidableEq, Repr

/-- The role string of a canonical role in OpenAI format. -/
def roleStr : Role → String
  | .user => "user"
  | .assistant => "assistant"

/-- The static model-name table of openai.ts lines 74-81 with its
`|| 'gpt-4o'` fallback. -/
def oaModelMap (m : String) : String :=
  if m = "claude-3-5-sonnet-20241022" then "gpt-4o"
  else if m = "claude-3-opus-20240229" then "gpt-4o"
  else if m = "claude-3-sonnet-20240229" then "gpt-4o"
  else if m = "claude-3-haiku-20240307" then "gpt-4o-mini"
  else "gpt-4o"

/-- The body of `OpenAITranspiler.convertRequest` (openai.ts lines
39-100): optional system message first, converted messages, model-name
mapping, `stream: anthropicReq.stream ?? true`, and the three optional
parameters added only when present (`max_tokens` only when truthy). -/
def oaConvertRequestCore (r : ARequest) : Except String OAIRequest :=
  match convMessagesWith (fun ro c => OAIMessage.mk (roleStr ro) c) r.messages with
  | .error e => .error e
  | .ok converted =>
      .ok {
        model := oaModelMap r.model
        messages :=
          (match r.system with
           | some s => if s ≠ "" then [OAIMessage.mk "system" s] else []
           | none => []) ++ converted
        max_tokens :=
          (match r.max_tokens with
           | some n => if n ≠ 0 then some n else none
           | none => none)
        temperature := r.temperature
        top_p := r.top_p
        stream := some (r.stream.getD true) }

/-- `OpenAITranspiler.convertRequest` with the surrounding catch that
rethrows any conversion failure as `TranspilerError('Request conversion
failed')`. -/
def oaConvertRequest (r : ARequest) : Except String OAIRequest :=
  match oaConvertRequestCore r with
  | .ok q => .ok q
  | .error _ => .error "Request conversion failed"

/-- One text part of an outgoing Gemini request. -/
structure GTextPart : Type where
  text : String
deriving DecidableEq, Repr

/-- One content entry of an outgoing Gemini request. -/
structure GReqContent : Type where
  role : String
  parts : List GTextPart
deriving DecidableEq, Repr

/-- The optional generation configuration of an outgoing Gemini
request. -/
structure GenerationConfig : Type where
  maxOutputTokens : Option Int
  temperature : Option Int
  topP : Option Int
deriving DecidableEq, Repr

/-- An outgoing Gemini request payload (google.ts); `none` fields are
absent from the serialized JSON. -/
structure GRequest : Type where
  contents : List GReqContent
  generationConfig : Option GenerationConfig
  systemInstruction : Option (List GTextPart)
deriving DecidableEq, Repr

/-- The body of `GoogleTranspiler.convertRequest` (google.ts lines
42-98): role mapping `assistant -> model`, `generationConfig` created
only when at least one parameter is present (`max_tokens` truthy), and
the system instruction added when `system` is truthy. -/
def gConvertRequestCore (r : ARequest) : Except String GRequest :=
  match convMessagesWith
      (fun ro t => GReqContent.mk (if ro = Role.assistant then "model" else "user") [GTextPart.mk t])
      r.messages with
  | .error e => .error e
  | .ok contents =>
      .ok {
        contents := contents
        generationConfig :=
          if (match r.max_tokens with
              | some n => decide (n ≠ 0)
              | none => false)
             || r.temperature.isSome || r.top_p.isSome then
            some {
              maxOutputTokens :=
                (match r.max_tokens with
                 | some n => if n ≠ 0 then some n else none
                 | none => none)
              temperature := r.temperature
              topP := r.top_p }
          else none
        systemInstruction :=
          (match r.system with
           | some s => if s ≠ "" then some [GTextPart.mk s] else none
           | none => none) }

/-- `GoogleTranspiler.convertRequest` with the surrounding catch. -/
def gConvertRequest (r : ARequest) : Except String GRequest :=
  match gConvertRequestCore r with
  | .ok q => .ok q
  | .error _ => .error "Request conversion failed"

/-- The newline-join of the texts of the text-typed blocks with
non-empty text, in order.  Stated independently of `flattenContent`
(following the amended claim wording) so the two can be compared. -/
def specJoinTexts (bs : List CBlock) : String :=
  String.intercalate "\n"
    (bs.filterMap (fun b =>
      if b.type = "text" then
        match b.text with
        | some t => if t ≠ "" then some t else none
        | none => none
      else none))

/-! ## Token store (src/src/auth/token-store.ts, src/unnamed/part_003) -/

/-- A stored token record. -/
structure TokenData : Type where
  access_token : String
  refresh_token : Option String
  expires_at : Option Int
  scope : Option String
deriving DecidableEq, Repr

/-- `TokenStore.isTokenValid` (token-store.ts lines 106-114) as a
function of the current clock.  `!tokenData.expires_at` is falsy for
`undefined` and for `0`; otherwise the token is valid strictly before
`expires_at` minus the 5-minute buffer. -/
def isTokenValid (now : Int) (td : TokenData) : Bool :=
  match td.expires_at with
  | none => true
  | some e => if e = 0 then true else decide (now < e - 5 * 60 * 1000)

/-- JavaScript truthiness of an optional string. -/
def truthyS : Option String → Bool
  | none => false
  | some s => s ≠ ""

/-- Whether an `Except` result is a success. -/
def exceptIsOk {ε α : Type} : Except ε α → Bool
  | .ok _ => true
  | .error _ => false

/-- The `TokenStore` constructor of src/src/auth/token-store.ts lines
16-26: a hard throw when the password is falsy or the placeholder, or
the salt is falsy or the placeholder; otherwise the pair feeds the key
derivation. -/
def tokenStoreInit (password salt : Option String) : Except String (String × String) :=
  if truthyS password = false ∨ password = some "default-key-change-me" then
    .error "Fatal: Secure encryption key not configured."
  else if truthyS salt = false ∨ salt = some "default-salt" then
    .error "Fatal: Secure salt not configured. Set CSG_SALT environment variable."
  else .ok (password.getD "", salt.getD "")

/-- The parsed contents of the saved encryption-key file read by the
revised constructor. -/
structure SavedKeyFile : Type where
  password : Option String
  salt : Option String
deriving DecidableEq, Repr

/-- Use the first option when truthy, otherwise the second
(JavaScript `a || b`). -/
def orTruthy (a b : Option String) : Option String :=
  if truthyS a then a else b

/-- The revised `TokenStore` constructor of src/unnamed/part_003 lines
17-53, after the environment fallback: when password or salt is falsy it
first tries the saved key file, then generates random values (`genP`,
`genS`) for whichever is still falsy, and always proceeds to key
derivation — no code path throws. -/
def tokenStoreInitV2 (password salt : Option String) (saved : Option SavedKeyFile)
    (genP genS : String) : Except String (String × String) :=
  let afterFile : Option String × Option String :=
    if truthyS password = false ∨ truthyS salt = false then
      match saved with
      | some f => (orTruthy password f.password, orTruthy salt f.salt)
      | none => (password, salt)
    else (password, salt)
  let final : String × String :=
    if truthyS afterFile.1 = false ∨ truthyS afterFile.2 = false then
      ((if truthyS afterFile.1 then afterFile.1.getD "" else genP),
       (if truthyS afterFile.2 then afterFile.2.getD "" else genS))
    else (afterFile.1.getD "", afterFile.2.getD "")
  .ok final

/-- A file-system error: the distinguished missing-file code or any
other error. -/
inductive FsError : Type
  | enoent
  | other (msg : String)
deriving DecidableEq, Repr

/-- The outcome of the underlying `fs.unlink` call. -/
inductive UnlinkOutcome : Type
  | ok
  | fail (e : FsError)
deriving DecidableEq, Repr

/-- `TokenStore.delete` (token-store.ts lines 95-104): the result as seen
by the caller, paired with whether an error was logged.  Success logs
info only; `ENOENT` is ignored silently; any other failure is logged and
swallowed.  No branch propagates an error. -/
def deleteModel : UnlinkOutcome → Except FsError Unit × Bool
  | .ok => (.ok (), false)
  | .fail .enoent => (.ok (), false)
  | .fail (.other _) => (.ok (), true)

/-- The outcome of the underlying `fs.readFile` + decrypt + parse
pipeline inside `load`. -/
inductive ReadOutcome : Type
  | ok (td : TokenData)
  | badData (msg : String)
  | fail (e : FsError)
deriving DecidableEq, Repr

/-- `TokenStore.load` (token-store.ts lines 77-93): a missing file
(`ENOENT`) yields `none`; a decrypt/parse failure or any other I/O error
propagates to the caller. -/
def loadModel : ReadOutcome → Except FsError (Option TokenData)
  | .ok td => .ok (some td)
  | .badData m => .error (.other m)
  | .fail .enoent => .ok none
  | .fail (.other m) => .error (.other m)

/-! ## Credential lifecycle (src/src/index.ts lines 300-356 and 501-546)

`getValidToken` of `OpenAIAuth` and `GoogleAuth` have the same structure;
the network refresh call is modelled by its outcome (`none` = the fetch
failed or returned non-2xx, which the catch turns into deletion plus an
authentication error). -/

/-- The typed authentication errors `getValidToken` can raise. -/
inductive AuthError : Type
  | noCredential
  | refreshFailed
deriving DecidableEq, Repr

/-- The parsed body of a successful token-endpoint refresh response. -/
structure RefreshResponse : Type where
  access_token : String
  refresh_token : Option String
  expires_in : Int
  scope : Option String
deriving DecidableEq, Repr

/-- What one `getValidToken` call produced: the token or error, how many
refresh requests went out, and the stored record afterwards. -/
structure AuthResult : Type where
  token : Except AuthError String
  refreshCalls : Nat
  storedAfter : Option TokenData
deriving Repr

/-- `getValidToken`: absent record fails with no network call; a valid
record returns the cached access token; otherwise exactly one refresh is
attempted — success merges the rotated refresh token and persists, any
failure deletes the stored record and raises the re-authentication
error. -/
def getValidTokenModel (stored : Option TokenData) (now : Int)
    (refreshOutcome : Option RefreshResponse) : AuthResult :=
  match stored with
  | none => ⟨.error .noCredential, 0, none⟩
  | some td =>
      if isTokenValid now td then ⟨.ok td.access_token, 0, some td⟩
      else
        match refreshOutcome with
        | none => ⟨.error .refreshFailed, 1, none⟩
        | some resp =>
            let newTd : TokenData :=
              ⟨resp.access_token,
               (match resp.refresh_token with
                | some x => some x
                | none => td.refresh_token),
               some (now + resp.expires_in * 1000),
               resp.scope⟩
            ⟨.ok newTd.access_token, 1, some newTd⟩

/-! ## Adapter routing (src/unnamed/part_005 first revision, part_004,
src/src/services/providers/openai.adapter.ts) -/

/-- Substring containment on character lists (JavaScript
`hay.includes(needle)`). -/
def hasSub (needle : List Char) : List Char → Bool
  | [] => needle.isEmpty
  | c :: t => needle.isPrefixOf (c :: t) || hasSub needle t

/-- JavaScript `m.startsWith(pre)`, evaluated on the character lists. -/
def strStarts (m pre : String) : Bool :=
  pre.toList.isPrefixOf m.toList

/-- The regular-expression test of `OpenAIAdapter.supports`: the model
name begins with `gpt-`, with `chatgpt-`, or with `o`, one digit 1-9 and
a dash. -/
def oaRegexTest (m : String) : Bool :=
  strStarts m "gpt-" || strStarts m "chatgpt-" ||
    (match m.toList with
     | 'o' :: d :: '-' :: _ => decide ('1' ≤ d ∧ d ≤ '9')
     | _ => false)

/-- `OpenAIAdapter.supports` (openai.adapter.ts lines 8-10). -/
def openaiSupports (m : String) : Bool :=
  oaRegexTest m || hasSub "codex".toList m.toList

/-- `GoogleAdapter.supports` (part_004 lines 8-10). -/
def googleSupports (m : String) : Bool :=
  strStarts m "gemini" || hasSub "antigravity".toList m.toList

/-- `AnthropicAdapter.supports` (part_004 lines 41-43): accepts every
model. -/
def anthropicSupports (_ : String) : Bool :=
  true

/-- The alias heuristic of `ProviderFactory.getAdapter` (part_005 line
23). -/
def aliasHeuristic (m : String) : Bool :=
  strStarts m "claude-" || hasSub "sonnet".toList m.toList
    || hasSub "opus".toList m.toList || hasSub "haiku".toList m.toList

/-- The three adapters. -/
inductive Adapter : Type
  | openai
  | google
  | anthropic
deriving DecidableEq, Repr

/-- `ProviderFactory.getAdapter` (part_005 lines 11-28): OpenAI first,
Google second, the claude-alias heuristic routed to Google, pass-through
last. -/
def getAdapter (m : String) : Adapter :=
  if openaiSupports m then .openai
  else if googleSupports m then .google
  else if aliasHeuristic m then .google
  else .anthropic

/-- The `supports` predicate of an adapter. -/
def adapterSupports : Adapter → String → Bool
  | .openai, m => openaiSupports m
  | .google, m => googleSupports m
  | .anthropic, m => anthropicSupports m

/-! ## Lemmas about the list helpers and the newline split -/

theorem joinMap_append {α β : Type} (f : α → List β) (l₁ l₂ : List α) :
    joinMap f (l₁ ++ l₂) = joinMap f l₁ ++ joinMap f l₂ := by
  induction l₁ with
  | nil => rfl
  | cons a t ih => simp [joinMap, ih]

theorem splitStep_ne_nil (c : Char) (acc : List (List Char)) : splitStep c acc ≠ [] := by
  rcases acc with _ | ⟨h, t⟩ <;> by_cases hc : c = '\n' <;> simp [splitStep, hc]

theorem foldr_splitStep_ne_nil (s : List Char) (init : List (List Char)) (h : init ≠ []) :
    s.foldr splitStep init ≠ [] := by
  cases s with
  | nil => simpa using h
  | cons c t => simpa using splitStep_ne_nil c (t.foldr splitStep init)

theorem splitNl_ne_nil (s : List Char) : splitNl s ≠ [] :=
  foldr_splitStep_ne_nil s [[]] (by simp)

theorem foldr_splitStep_shift (s : List Char) (h : List Char) (t : List (List Char)) :
    s.foldr splitStep (h :: t) = s.foldr splitStep [h] ++ t := by
  induction s with
  | nil => rfl
  | cons c r ih =>
    simp only [List.foldr_cons, ih]
    rcases hA : r.foldr splitStep [h] with _ | ⟨x, xs⟩
    · exact absurd hA (foldr_splitStep_ne_nil r [h] (by simp))
    · by_cases hc : c = '\n' <;> simp [splitStep, hc]

theorem foldr_splitStep_modLast (s : List Char) (h : List Char) :
    s.foldr splitStep [h] = modLast (· ++ h) (splitNl s) := by
  induction s with
  | nil => rfl
  | cons c r ih =>
    have hs : splitNl (c :: r) = splitStep c (splitNl r) := rfl
    rcases hB : splitNl r with _ | ⟨x, xs⟩
    · exact absurd hB (splitNl_ne_nil r)
    · rw [hs, hB]
      simp only [List.foldr_cons, ih, hB]
      rcases xs with _ | ⟨y, ys⟩ <;>
        by_cases hc : c = '\n' <;> simp [splitStep, modLast, hc]

theorem modLast_eq_front (f : List Char → List Char) (A : List (List Char)) (h : A ≠ []) :
    modLast f A = frontOf A ++ [f (lastOf A)] := by
  induction A with
  | nil => contradiction
  | cons x xs ih =>
    rcases xs with _ | ⟨y, ys⟩
    · rfl
    · simp only [modLast, frontOf, lastOf, ih (by simp), List.cons_append]

theorem frontOf_append {α : Type} (A B : List α) (h : B ≠ []) :
    frontOf (A ++ B) = A ++ frontOf B := by
  induction A with
  | nil => rfl
  | cons a t ih =>
    rcases t with _ | ⟨b, r⟩
    · rcases B with _ | ⟨b, r⟩
      · contradiction
      · rfl
    · simpa [frontOf] using ih

theorem lastOf_append (A B : List (List Char)) (h : B ≠ []) :
    lastOf (A ++ B) = lastOf B := by
  induction A with
  | nil => rfl
  | cons a t ih =>
    rcases t with _ | ⟨b, r⟩
    · rcases B with _ | ⟨b, r⟩
      · contradiction
      · rfl
    · simpa [lastOf] using ih

theorem lastOf_splitNl_noNl (s : List Char) : '\n' ∉ lastOf (splitNl s) := by
  induction s with
  | nil => simp [splitNl, lastOf]
  | cons c r ih =>
    show '\n' ∉ lastOf (splitStep c (splitNl r))
    rcases hB : splitNl r with _ | ⟨x, xs⟩
    · exact absurd hB (splitNl_ne_nil r)
    · rw [hB] at ih
      by_cases hc : c = '\n'
      · subst hc
        simpa [splitStep, lastOf] using ih
      · rcases xs with _ | ⟨y, ys⟩
        · simp only [splitStep, if_neg hc, lastOf]
          simp only [lastOf] at ih
          intro hm
          rcases List.mem_cons.mp hm with he | hm2
          · exact hc he.symm
          · exact ih hm2
        · simpa [splitStep, if_neg hc, lastOf] using ih

theorem foldr_splitStep_noNl (w : List Char) (hw : '\n' ∉ w) (h : List Char)
    (t : List (List Char)) : w.foldr splitStep (h :: t) = (w ++ h) :: t := by
  induction w with
  | nil => rfl
  | cons c r ih =>
    have hc : c ≠ '\n' := fun e => hw (by simp [e])
    have hr : '\n' ∉ r := fun m => hw (List.mem_cons_of_mem _ m)
    simp [List.foldr_cons, ih hr, splitStep, hc]

theorem splitNl_refeed (x c : List Char) :
    frontOf (splitNl (x ++ c)) =
      frontOf (splitNl x) ++ frontOf (splitNl (lastOf (splitNl x) ++ c)) ∧
    lastOf (splitNl (x ++ c)) = lastOf (splitNl (lastOf (splitNl x) ++ c)) := by
  rcases hc : splitNl c with _ | ⟨h, t⟩
  · exact absurd hc (splitNl_ne_nil c)
  have hcf : c.foldr splitStep [[]] = h :: t := hc
  have e1 : splitNl (x ++ c) = modLast (· ++ h) (splitNl x) ++ t := by
    show (x ++ c).foldr splitStep [[]] = _
    rw [List.foldr_append, hcf, foldr_splitStep_shift, foldr_splitStep_modLast]
  have hb : '\n' ∉ lastOf (splitNl x) := lastOf_splitNl_noNl x
  have e2 : splitNl (lastOf (splitNl x) ++ c) = (lastOf (splitNl x) ++ h) :: t := by
    show (lastOf (splitNl x) ++ c).foldr splitStep [[]] = _
    rw [List.foldr_append, hcf]
    exact foldr_splitStep_noNl _ hb h t
  have e3 : modLast (· ++ h) (splitNl x) =
      frontOf (splitNl x) ++ [lastOf (splitNl x) ++ h] :=
    modLast_eq_front _ _ (splitNl_ne_nil x)
  constructor
  · rw [e1, e2, e3]
    rcases t with _ | ⟨t₀, ts⟩
    · rw [List.append_nil, frontOf_append _ _ (by simp)]
    · rw [List.append_assoc, frontOf_append _ _ (by simp),
        frontOf_append _ _ (by simp)]
      all_goals rfl
  · rw [e1, e2, e3]
    rcases t with _ | ⟨t₀, ts⟩
    · rw [List.append_nil, lastOf_append _ _ (by simp)]
    · rw [lastOf_append _ _ (by simp)]
      rfl

theorem oaGo_merge (parse : List Char → Option OAChunk) (buf c₁ c₂ : List Char)
    (cs : List (List Char)) :
    oaGo parse buf ((c₁ ++ c₂) :: cs) = oaGo parse buf (c₁ :: c₂ :: cs) := by
  have h := splitNl_refeed (buf ++ c₁) c₂
  simp only [oaGo]
  rw [show buf ++ (c₁ ++ c₂) = (buf ++ c₁) ++ c₂ from (List.append_assoc buf c₁ c₂).symm,
    h.1, h.2, joinMap_append, List.append_assoc]

/-! ## Lemmas about the canonical event order -/

theorem evNames_append (a b : List AEvent) : evNames (a ++ b) = evNames a ++ evNames b :=
  List.map_append evName a b

theorem evNames_map_delta (ts : List String) :
    evNames (ts.map AEvent.contentBlockDelta) =
      List.replicate ts.length "content_block_delta" := by
  induction ts with
  | nil => rfl
  | cons a t ih => simpa [evNames, evName, List.replicate_succ] using ih

theorem joinMap_nil_of {α : Type} (f : α → List AEvent) (l : List α)
    (h : ∀ c ∈ l, f c = []) : joinMap f l = [] := by
  induction l with
  | nil => rfl
  | cons a t ih =>
    simp only [joinMap, h a (by simp), List.nil_append]
    exact ih (fun c hc => h c (by simp [hc]))

theorem joinMap_deltas {α : Type} (f : α → List AEvent) (l : List α)
    (h : ∀ c ∈ l, ∃ ts : List String, f c = ts.map AEvent.contentBlockDelta) :
    ∃ K, evNames (joinMap f l) = List.replicate K "content_block_delta" := by
  induction l with
  | nil => exact ⟨0, rfl⟩
  | cons a t ih =>
    obtain ⟨ts, hts⟩ := h a (by simp)
    obtain ⟨K, hK⟩ := ih (fun c hc => h c (by simp [hc]))
    refine ⟨ts.length + K, ?_⟩
    simp only [joinMap, evNames_append, hts, evNames_map_delta, hK, List.replicate_add]

theorem order_generic {α : Type} (events : α → List AEvent) (pre post : List α) (fc : α)
    (hpre : ∀ c ∈ pre, ∃ ts : List String, events c = ts.map AEvent.contentBlockDelta)
    (hfc : ∃ (ts : List String) (sr : Option String) (n : Nat),
        events fc = ts.map AEvent.contentBlockDelta ++
          [AEvent.contentBlockStop, AEvent.messageDelta sr n, AEvent.messageStop])
    (hpost : ∀ c ∈ post, events c = []) :
    canonicalOrder (evNames ([AEvent.messageStart, AEvent.contentBlockStart] ++
      joinMap events (pre ++ fc :: post))) := by
  obtain ⟨K, hK⟩ := joinMap_deltas events pre hpre
  obtain ⟨ts, sr, n, hf⟩ := hfc
  refine ⟨K + ts.length, ?_⟩
  rw [joinMap_append]
  simp only [joinMap]
  rw [joinMap_nil_of events post hpost, List.append_nil, hf]
  have h1 : evNames [AEvent.messageStart, AEvent.contentBlockStart] =
      ["message_start", "content_block_start"] := rfl
  have h2 : evNames [AEvent.contentBlockStop, AEvent.messageDelta sr n, AEvent.messageStop] =
      ["content_block_stop", "message_delta", "message_stop"] := rfl
  rw [evNames_append, evNames_append, evNames_append, hK, evNames_map_delta, h1, h2,
    List.replicate_add]
  simp only [List.append_assoc]

theorem oa_events_no_finish (c : OAChunk) (h : oaHasFinish c = false) :
    ∃ ts : List String, oaChunkEvents c = ts.map AEvent.contentBlockDelta := by
  have hfe : oaFinishEvents c = [] := by
    rcases hr : c.finishReason with _ | r
    · simp [oaFinishEvents, hr]
    · have : ¬ r ≠ "" := by simpa [oaHasFinish, hr] using h
      simp [oaFinishEvents, hr, this]
  rcases hd : c.deltaContent with _ | t
  · exact ⟨[], by simp [oaChunkEvents, oaDeltaEvents, hd, hfe]⟩
  · by_cases ht : t = ""
    · exact ⟨[], by simp [oaChunkEvents, oaDeltaEvents, hd, ht, hfe]⟩
    · exact ⟨[t], by simp [oaChunkEvents, oaDeltaEvents, hd, ht, hfe]⟩

theorem oa_events_finish (c : OAChunk) (h : oaHasFinish c = true) :
    ∃ (ts : List String) (sr : Option String) (n : Nat),
      oaChunkEvents c = ts.map AEvent.contentBlockDelta ++
        [AEvent.contentBlockStop, AEvent.messageDelta sr n, AEvent.messageStop] := by
  rcases hr : c.finishReason with _ | r
  · simp [oaHasFinish, hr] at h
  · have hrne : r ≠ "" := by simpa [oaHasFinish, hr] using h
    have hfe : oaFinishEvents c =
        [AEvent.contentBlockStop, AEvent.messageDelta (oaMapFinishReason (some r)) 0,
         AEvent.messageStop] := by
      simp [oaFinishEvents, hr, hrne]
    rcases hd : c.deltaContent with _ | t
    · exact ⟨[], oaMapFinishReason (some r), 0,
        by simp [oaChunkEvents, oaDeltaEvents, hd, hfe]⟩
    · by_cases ht : t = ""
      · exact ⟨[], oaMapFinishReason (some r), 0,
          by simp [oaChunkEvents, oaDeltaEvents, hd, ht, hfe]⟩
      · exact ⟨[t], oaMapFinishReason (some r), 0,
          by simp [oaChunkEvents, oaDeltaEvents, hd, ht, hfe]⟩

theorem oa_events_inert (c : OAChunk) (hd : oaHasDelta c = false)
    (hf : oaHasFinish c = false) : oaChunkEvents c = [] := by
  obtain ⟨ts, hts⟩ := oa_events_no_finish c hf
  rcases hdc : c.deltaContent with _ | t
  · simp [oaChunkEvents, oaDeltaEvents, hdc] at hts ⊢
    rcases hr : c.finishReason with _ | r
    · simp [oaFinishEvents, hr]
    · have : ¬ r ≠ "" := by simpa [oaHasFinish, hr] using hf
      simp [oaFinishEvents, hr, this]
  · have ht : ¬ t ≠ "" := by simpa [oaHasDelta, hdc] using hd
    rcases hr : c.finishReason with _ | r
    · simp [oaChunkEvents, oaDeltaEvents, oaFinishEvents, hdc, hr, ht]
    · have hrr : ¬ r ≠ "" := by simpa [oaHasFinish, hr] using hf
      simp [oaChunkEvents, oaDeltaEvents, oaFinishEvents, hdc, hr, ht, hrr]

theorem g_delta_part (cand : GCand) :
    ∃ ts : List String,
      (match cand.parts with
       | some (p :: _) =>
           (match p.text with
            | some t => if t ≠ "" then [AEvent.contentBlockDelta t] else []
            | none => [])
       | _ => []) = ts.map AEvent.contentBlockDelta := by
  rcases hp : cand.parts with _ | ⟨_ | ⟨p, ps⟩⟩
  · exact ⟨[], by simp⟩
  · exact ⟨[], by simp⟩
  · rcases htx : p.text with _ | t
    · exact ⟨[], by simp [htx]⟩
    · by_cases ht : t = ""
      · exact ⟨[], by simp [htx, ht]⟩
      · exact ⟨[t], by simp [htx, ht]⟩

theorem g_events_no_finish (c : GChunk) (h : gHasFinish c = false) :
    ∃ ts : List String, gChunkEvents c = ts.map AEvent.contentBlockDelta := by
  rcases hcs : c.candidates with _ | ⟨_ | ⟨cand, rest⟩⟩
  · exact ⟨[], by simp [gChunkEvents, hcs]⟩
  · exact ⟨[], by simp [gChunkEvents, hcs]⟩
  · have hfin : (match cand.finishReason with
        | some r =>
            if r ≠ "" then
              [AEvent.contentBlockStop,
               AEvent.messageDelta (gMapFinishReason (some r)) (c.usageTokens.getD 0),
               AEvent.messageStop]
            else []
        | none => []) = ([] : List AEvent) := by
      rcases hr : cand.finishReason with _ | r
      · simp
      · have : ¬ r ≠ "" := by simpa [gHasFinish, hcs, hr] using h
        simp [this]
    obtain ⟨ts, hts⟩ := g_delta_part cand
    refine ⟨ts, ?_⟩
    simp only [gChunkEvents, hcs, hfin, List.append_nil, hts]

theorem g_events_finish (c : GChunk) (h : gHasFinish c = true) :
    ∃ (ts : List String) (sr : Option String) (n : Nat),
      gChunkEvents c = ts.map AEvent.contentBlockDelta ++
        [AEvent.contentBlockStop, AEvent.messageDelta sr n, AEvent.messageStop] := by
  rcases hcs : c.candidates with _ | ⟨_ | ⟨cand, rest⟩⟩
  · simp [gHasFinish, hcs] at h
  · simp [gHasFinish, hcs] at h
  · rcases hr : cand.finishReason with _ | r
    · simp [gHasFinish, hcs, hr] at h
    · have hrne : r ≠ "" := by simpa [gHasFinish, hcs, hr] using h
      obtain ⟨ts, hts⟩ := g_delta_part cand
      refine ⟨ts, gMapFinishReason (some r), c.usageTokens.getD 0, ?_⟩
      simp only [gChunkEvents, hcs, hts, hr, hrne, if_pos]
      simp [hrne]

theorem g_events_inert (c : GChunk) (hd : gHasDelta c = false)
    (hf : gHasFinish c = false) : gChunkEvents c = [] := by
  obtain ⟨ts, hts⟩ := g_events_no_finish c hf
  rcases hcs : c.candidates with _ | ⟨_ | ⟨cand, rest⟩⟩
  · simp [gChunkEvents, hcs]
  · simp [gChunkEvents, hcs]
  · have hfin : (match cand.finishReason with
        | some r =>
            if r ≠ "" then
              [AEvent.contentBlockStop,
               AEvent.messageDelta (gMapFinishReason (some r)) (c.usageTokens.getD 0),
               AEvent.messageStop]
            else []
        | none => []) = ([] : List AEvent) := by
      rcases hr : cand.finishReason with _ | r
      · simp
      · have : ¬ r ≠ "" := by simpa [gHasFinish, hcs, hr] using hf
        simp [this]
    have hdel : (match cand.parts with
        | some (p :: _) =>
            (match p.text with
             | some t => if t ≠ "" then [AEvent.contentBlockDelta t] else []
             | none => [])
        | _ => []) = ([] : List AEvent) := by
      rcases hp : cand.parts with _ | ⟨_ | ⟨p, ps⟩⟩
      · simp
      · simp
      · rcases htx : p.text with _ | t
        · simp [htx]
        · have : ¬ t ≠ "" := by simpa [gHasDelta, hcs, hp, htx] using hd
          simp [htx, this]
    simp only [gChunkEvents, hcs, hfin, hdel, List.append_nil]

/-! ## Claim theorems -/

/-- C1 (amended): for any upstream chunk sequence of the form
`pre ++ finish :: post` where no chunk before the finish chunk carries a
truthy finish signal, the finish chunk does, and every trailing chunk
carries neither a truthy text delta nor a truthy finish signal, both
`convertStreamResponse` implementations emit exactly the canonical event
sequence: one `message_start`, one `content_block_start`, zero or more
`content_block_delta`, then exactly one `content_block_stop`,
`message_delta` and `message_stop`, in that order.  (The claim as stated
over all finish-carrying sequences fails: the source has no bookkeeping
guard, so a second finish-carrying chunk repeats the closing triple — see
the counterexample.) -/
theorem stream_event_order :
    (∀ (pre post : List OAChunk) (fc : OAChunk),
        (∀ c ∈ pre, oaHasFinish c = false) →
        oaHasFinish fc = true →
        (∀ c ∈ post, oaHasDelta c = false ∧ oaHasFinish c = false) →
        canonicalOrder (evNames (oaStreamEvents (pre ++ fc :: post)))) ∧
    (∀ (pre post : List GChunk) (fc : GChunk),
        (∀ c ∈ pre, gHasFinish c = false) →
        gHasFinish fc = true →
        (∀ c ∈ post, gHasDelta c = false ∧ gHasFinish c = false) →
        canonicalOrder (evNames (gStreamEvents (pre ++ fc :: post)))) := by
  constructor
  · intro pre post fc hpre hfc hpost
    exact order_generic oaChunkEvents pre post fc
      (fun c hc => oa_events_no_finish c (hpre c hc))
      (oa_events_finish fc hfc)
      (fun c hc => oa_events_inert c (hpost c hc).1 (hpost c hc).2)
  · intro pre post fc hpre hfc hpost
    exact order_generic gChunkEvents pre post fc
      (fun c hc => g_events_no_finish c (hpre c hc))
      (g_events_finish fc hfc)
      (fun c hc => g_events_inert c (hpost c hc).1 (hpost c hc).2)

/-- C1 witness: the amended order theorem applied to a one-delta OpenAI
stream and a single-chunk Gemini stream. -/
theorem stream_event_order_witness :
    canonicalOrder (evNames (oaStreamEvents
      ([⟨some "Hi", none⟩] ++ (⟨none, some "stop"⟩ : OAChunk) :: []))) ∧
    canonicalOrder (evNames (gStreamEvents
      ([] ++ (⟨some [⟨some [⟨some "Hello"⟩], some "STOP"⟩], some 3⟩ : GChunk) :: []))) := by
  constructor
  · exact stream_event_order.1 [⟨some "Hi", none⟩] [] ⟨none, some "stop"⟩
      (by decide) (by decide) (by decide)
  · exact stream_event_order.2 [] [] ⟨some [⟨some [⟨some "Hello"⟩], some "STOP"⟩], some 3⟩
      (by decide) (by decide) (by decide)

/-- C1 counterexample: an upstream sequence of two finish-carrying chunks
(a trailing frame arriving after the finish signal, as the claim allows)
makes `convertStreamResponse` emit the closing triple twice, so the
emitted name sequence violates the claimed invariant. -/
theorem stream_event_order_cex :
    oaHasFinish ⟨none, some "stop"⟩ = true ∧
    ¬ canonicalOrder (evNames (oaStreamEvents
        [⟨none, some "stop"⟩, ⟨none, some "stop"⟩])) := by
  refine ⟨rfl, ?_⟩
  rintro ⟨k, hk⟩
  have hlen := congrArg List.length hk
  have h8 : (evNames (oaStreamEvents
      [⟨none, some "stop"⟩, ⟨none, some "stop"⟩])).length = 8 := by decide
  rw [h8] at hlen
  simp only [List.length_append, List.length_replicate, List.length_cons,
    List.length_nil] at hlen
  have hk3 : k = 3 := by omega
  subst hk3
  exact absurd hk (by decide)

/-- C2 (amended): every finish reason listed in the mapping table is sent
to its documented canonical value by both transpilers, and
`convertResponse` and the streaming `message_delta` use exactly that
mapping; an unrecognized finish reason maps to `end_turn` in the Google
transpiler, but the OpenAI transpiler passes the unrecognized string
through unchanged (never an error in either case). -/
theorem finish_reason_mapping :
    (oaMapFinishReason (some "stop") = some "end_turn" ∧
     oaMapFinishReason (some "length") = some "max_tokens" ∧
     oaMapFinishReason (some "tool_calls") = some "tool_use" ∧
     oaMapFinishReason (some "function_call") = some "tool_use" ∧
     oaMapFinishReason (some "content_filter") = some "refusal") ∧
    (gMapFinishReason (some "STOP") = some "end_turn" ∧
     gMapFinishReason (some "FINISHED") = some "end_turn" ∧
     gMapFinishReason (some "MAX_TOKENS") = some "max_tokens" ∧
     gMapFinishReason (some "SAFETY") = some "refusal" ∧
     gMapFinishReason (some "RECITATION") = some "refusal") ∧
    (∀ r : String,
        r ∉ ["STOP", "FINISHED", "MAX_TOKENS", "STOP_SEQUENCE", "SAFETY",
             "RECITATION", "INTERRUPTED"] → r ≠ "" →
        gMapFinishReason (some r) = some "end_turn") ∧
    (∀ r : String,
        r ∉ ["stop", "length", "tool_calls", "function_call", "content_filter"] →
        r ≠ "" →
        oaMapFinishReason (some r) = some r) ∧
    (∀ d m, (oaConvertResponse d m).stop_reason = oaMapFinishReason d.finishReason) ∧
    (∀ i d m, (gConvertResponse i d m).stop_reason = gMapFinishReason d.finishReason) ∧
    (∀ (c : OAChunk) (r : String), c.finishReason = some r → r ≠ "" →
        oaFinishEvents c = [.contentBlockStop,
          .messageDelta (oaMapFinishReason (some r)) 0, .messageStop]) := by
  refine ⟨⟨rfl, rfl, rfl, rfl, rfl⟩, ⟨rfl, rfl, rfl, rfl, rfl⟩, ?_, ?_,
    fun d m => rfl, fun i d m => rfl, ?_⟩
  · intro r h h0
    simp only [List.mem_cons, List.mem_singleton, not_or] at h
    obtain ⟨h1, h2, h3, h4, h5, h6, h7, -⟩ := h
    simp [gMapFinishReason, h0, h1, h2, h3, h4, h5, h6, h7]
  · intro r h h0
    simp only [List.mem_cons, List.mem_singleton, not_or] at h
    obtain ⟨h1, h2, h3, h4, h5, -⟩ := h
    simp [oaMapFinishReason, h0, h1, h2, h3, h4, h5]
  · intro c r hc hr
    simp [oaFinishEvents, hc, hr]

/-- C2 witness: the unrecognized-reason conjuncts applied to concrete
strings outside the tables. -/
theorem finish_reason_mapping_witness :
    gMapFinishReason (some "BLOCKED") = some "end_turn" ∧
    oaMapFinishReason (some "weird") = some "weird" := by
  obtain ⟨-, -, hg, ho, -, -, -⟩ := finish_reason_mapping
  exact ⟨hg "BLOCKED" (by decide) (by decide), ho "weird" (by decide) (by decide)⟩

/-- C2 counterexample: the OpenAI transpiler maps the unrecognized finish
reason `weird` to `weird` itself, not to the claimed `end_turn`, and
`convertResponse` exposes that value as `stop_reason`. -/
theorem finish_reason_mapping_cex :
    (oaConvertResponse ⟨"id0", none, some "hello", some "weird", none, none⟩
        "m0").stop_reason = some "weird" ∧
    (some "weird" : Option String) ≠ some "end_turn" :=
  ⟨rfl, by decide⟩

/-- C3: chunking invariance of the line-buffered stream converter —
delivering a payload split at any offset across two reads produces
exactly the same event sequence as delivering it in one read, for every
payload, split offset and chunk-parsing function. -/
theorem chunk_split_invariance (parse : List Char → Option OAChunk)
    (payload : List Char) (i : Nat) :
    oaStreamString parse [payload.take i, payload.drop i] =
      oaStreamString parse [payload] := by
  unfold oaStreamString
  rw [← oaGo_merge, List.take_append_drop]

/-- The filter-then-map of the source equals the amended specification
join (text-typed blocks with non-empty text, in order). -/
theorem flatten_eq_spec (bs : List CBlock) :
    (bs.filter blockKept).map (fun b => b.text.getD "") =
      bs.filterMap (fun b =>
        if b.type = "text" then
          match b.text with
          | some t => if t ≠ "" then some t else none
          | none => none
        else none) := by
  induction bs with
  | nil => rfl
  | cons b t ih =>
    rcases b with ⟨ty, txt⟩
    by_cases hty : ty = "text"
    · rcases txt with _ | s
      · simpa [blockKept, hty, List.filter_cons, List.filterMap_cons] using ih
      · by_cases hs : s = "" <;>
          simpa [blockKept, hty, hs, List.filter_cons, List.filterMap_cons] using ih
    · simpa [blockKept, hty, List.filter_cons, List.filterMap_cons] using ih

/-- C4 (amended): `convertRequest` uses a string content verbatim,
reduces an array of typed blocks to the newline-join of the texts of the
text-typed blocks with non-empty text (preserving order; non-text blocks
and empty text blocks are dropped without error), and raises a
`TranspilerError` on any other content shape — in both transpilers.
(The claim as stated fails on text-typed blocks with empty text: the
source filter also drops those, so the output is not the join of all
text-typed blocks — see the counterexample.) -/
theorem content_flattening :
    (∀ s, flattenContent (.str s) = .ok s) ∧
    (∀ bs, flattenContent (.blocks bs) = .ok (specJoinTexts bs)) ∧
    (flattenContent .other = .error "Unsupported message content format") ∧
    (∀ (model : String) (ro : Role) (bs : List CBlock) (mt tmp tp : Option Int)
        (st : Option Bool),
        (oaConvertRequest ⟨model, [⟨ro, .blocks bs⟩], mt, tmp, tp, st, none⟩).map
          (fun q => q.messages.map (fun mm => mm.content)) = .ok [specJoinTexts bs]) ∧
    (∀ (model : String) (ro : Role) (bs : List CBlock) (mt tmp tp : Option Int)
        (st : Option Bool),
        (gConvertRequest ⟨model, [⟨ro, .blocks bs⟩], mt, tmp, tp, st, none⟩).map
          (fun q => q.contents.map (fun cc => cc.parts.map (fun p => p.text))) =
          .ok [[specJoinTexts bs]]) ∧
    (∀ (model : String) (ro : Role) (mt tmp tp : Option Int) (st : Option Bool),
        oaConvertRequest ⟨model, [⟨ro, .other⟩], mt, tmp, tp, st, none⟩ =
          .error "Request conversion failed" ∧
        gConvertRequest ⟨model, [⟨ro, .other⟩], mt, tmp, tp, st, none⟩ =
          .error "Request conversion failed") := by
  have hflat : ∀ bs, flattenContent (.blocks bs) = .ok (specJoinTexts bs) := by
    intro bs
    simp [flattenContent, specJoinTexts, flatten_eq_spec]
  refine ⟨fun s => rfl, hflat, rfl, ?_, ?_, fun model ro mt tmp tp st => ⟨rfl, rfl⟩⟩
  · intro model ro bs mt tmp tp st
    simp [oaConvertRequest, oaConvertRequestCore, convMessagesWith, hflat bs, Except.map]
  · intro model ro bs mt tmp tp st
    simp [gConvertRequest, gConvertRequestCore, convMessagesWith, hflat bs, Except.map]

/-- C4 counterexample: on three text-typed blocks with texts `a`, empty,
`b`, the source produces `a\nb`, while the claimed join of the text-typed
blocks is `a\n\nb`. -/
theorem content_flattening_cex :
    flattenContent (.blocks [⟨"text", some "a"⟩, ⟨"text", some ""⟩, ⟨"text", some "b"⟩]) =
      .ok "a\nb" ∧
    String.intercalate "\n"
      (([⟨"text", some "a"⟩, ⟨"text", some ""⟩, ⟨"text", some "b"⟩] : List CBlock).map
        (fun b => b.text.getD "")) = "a\n\nb" ∧
    ("a\nb" : String) ≠ "a\n\nb" :=
  ⟨rfl, rfl, by decide⟩

/-- C5 (amended): `convertRequest` omits `max_tokens`, `temperature` and
`top_p` from the outgoing payload when they are absent from the canonical
request (both transpilers; the Gemini payload has no stream field at
all), but the OpenAI payload always carries `stream`, defaulted to `true`
when the canonical request has none.  (The claim as stated — that an
absent `stream` stays absent — fails; see the counterexample.) -/
theorem optional_param_forwarding :
    (∀ r q, oaConvertRequest r = .ok q →
        (r.max_tokens = none → q.max_tokens = none) ∧
        (r.temperature = none → q.temperature = none) ∧
        (r.top_p = none → q.top_p = none) ∧
        q.stream = some (r.stream.getD true)) ∧
    (∀ r q, gConvertRequest r = .ok q →
        (r.max_tokens = none ∧ r.temperature = none ∧ r.top_p = none →
          q.generationConfig = none) ∧
        (∀ gc, q.generationConfig = some gc →
          (r.max_tokens = none → gc.maxOutputTokens = none) ∧
          (r.temperature = none → gc.temperature = none) ∧
          (r.top_p = none → gc.topP = none))) := by
  constructor
  · intro r q h
    unfold oaConvertRequest oaConvertRequestCore at h
    rcases hc : convMessagesWith (fun ro c => OAIMessage.mk (roleStr ro) c) r.messages with
      e | converted
    · rw [hc] at h
      exact absurd h (by simp)
    · rw [hc] at h
      have hq := Except.ok.inj h
      subst hq
      refine ⟨?_, fun ht => ht, fun ht => ht, rfl⟩
      intro hmt
      simp [hmt]
  · intro r q h
    unfold gConvertRequest gConvertRequestCore at h
    rcases hc : convMessagesWith
        (fun ro t => GReqContent.mk (if ro = Role.assistant then "model" else "user")
          [GTextPart.mk t]) r.messages with e | contents
    · rw [hc] at h
      exact absurd h (by simp)
    · rw [hc] at h
      have hq := Except.ok.inj h
      subst hq
      constructor
      · rintro ⟨h1, h2, h3⟩
        simp [h1, h2, h3]
      · intro gc hgc
        by_cases hcond : (match r.max_tokens with
            | some n => decide (n ≠ 0)
            | none => false) || r.temperature.isSome || r.top_p.isSome
        · simp only [hcond, if_true] at hgc
          have hgc2 := Option.some.inj hgc
          subst hgc2
          refine ⟨?_, fun ht => ht, fun ht => ht⟩
          intro hmt
          simp [hmt]
        · rw [Bool.not_eq_true] at hcond
          rw [hcond] at hgc
          simp at hgc

/-- C5 witness: the forwarding theorem applied to a request with every
optional parameter absent. -/
theorem optional_param_forwarding_witness :
    ((⟨"gpt-4o", [⟨"user", "hi"⟩], none, none, none, some true⟩ : OAIRequest).max_tokens
        = none) ∧
    ((⟨"gpt-4o", [⟨"user", "hi"⟩], none, none, none, some true⟩ : OAIRequest).stream
        = some true) := by
  have h := optional_param_forwarding.1 ⟨"m", [⟨.user, .str "hi"⟩], none, none, none, none, none⟩
    ⟨"gpt-4o", [⟨"user", "hi"⟩], none, none, none, some true⟩ rfl
  exact ⟨h.1 rfl, h.2.2.2⟩

/-- C5 counterexample: a canonical request without `stream` produces an
OpenAI payload in which `stream` is present and `true` — the absent
option is defaulted into the outgoing payload. -/
theorem optional_param_forwarding_cex :
    (oaConvertRequest ⟨"m", [⟨.user, .str "hi"⟩], none, none, none, none, none⟩).map
      (fun q => q.stream) = .ok (some true) ∧
    (some true : Option Bool) ≠ none :=
  ⟨rfl, by decide⟩

/-- C6: `getValidToken` — an absent stored record fails with the
no-credential error and zero refresh calls; a still-valid record returns
the cached access token unchanged with zero refresh calls; a failed
refresh deletes the stored record and fails with the re-authentication
error; and no execution path performs more than one refresh call. -/
theorem refresh_single_attempt :
    (∀ now ro, getValidTokenModel none now ro =
        ⟨.error .noCredential, 0, none⟩) ∧
    (∀ td now ro, isTokenValid now td = true →
        getValidTokenModel (some td) now ro = ⟨.ok td.access_token, 0, some td⟩) ∧
    (∀ td now, isTokenValid now td = false →
        getValidTokenModel (some td) now none = ⟨.error .refreshFailed, 1, none⟩) ∧
    (∀ st now ro, (getValidTokenModel st now ro).refreshCalls ≤ 1) := by
  refine ⟨fun now ro => rfl, ?_, ?_, ?_⟩
  · intro td now ro h
    simp [getValidTokenModel, h]
  · intro td now h
    simp [getValidTokenModel, h]
  · intro st now ro
    rcases st with _ | td
    · simp [getValidTokenModel]
    · by_cases h : isTokenValid now td <;> rcases ro with _ | resp <;>
        simp [getValidTokenModel, h]

/-- C6 witness: the single-attempt theorem applied to an expired record
with a failing refresh, and to a non-expiring cached record. -/
theorem refresh_single_attempt_witness :
    getValidTokenModel (some ⟨"tok", some "r", some 1000000, none⟩) 2000000 none =
      ⟨.error .refreshFailed, 1, none⟩ ∧
    getValidTokenModel (some ⟨"tok2", none, none, none⟩) 0 none =
      ⟨.ok "tok2", 0, some ⟨"tok2", none, none, none⟩⟩ := by
  have h := refresh_single_attempt
  exact ⟨h.2.2.1 ⟨"tok", some "r", some 1000000, none⟩ 2000000 (by decide),
    h.2.1 ⟨"tok2", none, none, none⟩ 0 none (by decide)⟩

/-- C7 (amended): `isTokenValid` returns true when `expires_at` is
absent or zero (JavaScript falsiness); for any non-zero `expires_at` it
returns true exactly when the clock is strictly before `expires_at` minus
the 5-minute buffer; and the four examples of the claim hold for every
clock value beyond the buffer.  (The claim as stated — strict comparison
whenever `expires_at` is present — fails at `expires_at = 0`; see the
counterexample.) -/
theorem token_validity :
    (∀ now td, td.expires_at = none → isTokenValid now td = true) ∧
    (∀ now td, td.expires_at = some 0 → isTokenValid now td = true) ∧
    (∀ now td e, td.expires_at = some e → e ≠ 0 →
        (isTokenValid now td = true ↔ now < e - 5 * 60 * 1000)) ∧
    (∀ (now : Int) (a : String), 300000 < now →
        isTokenValid now ⟨a, none, some (now + 3600000), none⟩ = true ∧
        isTokenValid now ⟨a, none, some (now - 1), none⟩ = false ∧
        isTokenValid now ⟨a, none, some (now + 60000), none⟩ = false ∧
        isTokenValid now ⟨a, none, none, none⟩ = true) := by
  refine ⟨?_, ?_, ?_, ?_⟩
  · intro now td h
    simp [isTokenValid, h]
  · intro now td h
    simp [isTokenValid, h]
  · intro now td e h he
    simp [isTokenValid, h, he]
  · intro now a h
    refine ⟨?_, ?_, ?_, rfl⟩
    · have hz : now + 3600000 ≠ 0 := by omega
      simp only [isTokenValid, if_neg hz, decide_eq_true_eq]
      omega
    · have hz : now - 1 ≠ 0 := by omega
      simp only [isTokenValid, if_neg hz, decide_eq_false_iff_not]
      omega
    · have hz : now + 60000 ≠ 0 := by omega
      simp only [isTokenValid, if_neg hz, decide_eq_false_iff_not]
      omega

/-- C7 witness: the example conjunct applied at a concrete clock. -/
theorem token_validity_witness :
    isTokenValid 400000 ⟨"t", none, some (400000 + 3600000), none⟩ = true ∧
    isTokenValid 400000 ⟨"t", none, some (400000 - 1), none⟩ = false := by
  have h := token_validity.2.2.2 400000 "t" (by decide)
  exact ⟨h.1, h.2.1⟩

/-- C7 counterexample: a record with `expires_at = 0` is present but
falsy, so the source returns true, while the claimed strict comparison
`now < expires_at - buffer` is false at clock 0. -/
theorem token_validity_cex :
    isTokenValid 0 ⟨"t", none, some 0, none⟩ = true ∧
    ¬ ((0 : Int) < 0 - 5 * 60 * 1000) :=
  ⟨rfl, by decide⟩

/-- C8: adapter selection is total and deterministic with fixed
priority — the pass-through adapter accepts every model; the OpenAI
adapter wins when its predicate matches; otherwise the Google adapter
when its predicate matches; otherwise the alias heuristic routes to the
Google adapter; otherwise the pass-through adapter is returned. -/
theorem adapter_selection :
    (∀ m, anthropicSupports m = true) ∧
    (∀ m, openaiSupports m = true → getAdapter m = .openai) ∧
    (∀ m, openaiSupports m = false → googleSupports m = true →
        getAdapter m = .google) ∧
    (∀ m, openaiSupports m = false → googleSupports m = false →
        aliasHeuristic m = true → getAdapter m = .google) ∧
    (∀ m, openaiSupports m = false → googleSupports m = false →
        aliasHeuristic m = false → getAdapter m = .anthropic) := by
  refine ⟨fun m => rfl, ?_, ?_, ?_, ?_⟩ <;>
    · intro m
      intros
      simp [getAdapter, *]

/-- C8 witness: one model per selection branch. -/
theorem adapter_selection_witness :
    getAdapter "gpt-4o" = .openai ∧ getAdapter "gemini-pro" = .google ∧
    getAdapter "claude-3-opus" = .google ∧ getAdapter "mistral" = .anthropic := by
  obtain ⟨-, h1, h2, h3, h4⟩ := adapter_selection
  exact ⟨h1 "gpt-4o" (by decide), h2 "gemini-pro" (by decide) (by decide),
    h3 "claude-3-opus" (by decide) (by decide) (by decide),
    h4 "mistral" (by decide) (by decide) (by decide)⟩

/-- C9 (amended): the TokenStore constructor of
src/src/auth/token-store.ts fails fast whenever the encryption secret is
missing, empty or the `default-key-change-me` placeholder, or the salt is
missing, empty or the `default-salt` placeholder, and succeeds otherwise;
but the revised constructor of src/unnamed/part_003 never throws — when
secret or salt is missing it falls back to the saved key file and then to
freshly generated random values.  (The claim as stated — the constructor
throws whenever secret or salt is missing or defaulted — fails on the
revised constructor; see the counterexample.) -/
theorem store_init_fail_fast :
    (∀ p s, truthyS p = false ∨ p = some "default-key-change-me" ∨
        truthyS s = false ∨ s = some "default-salt" →
        exceptIsOk (tokenStoreInit p s) = false) ∧
    (∀ p s, truthyS p = true → p ≠ some "default-key-change-me" →
        truthyS s = true → s ≠ some "default-salt" →
        tokenStoreInit p s = .ok (p.getD "", s.getD "")) ∧
    (∀ p s saved genP genS, exceptIsOk (tokenStoreInitV2 p s saved genP genS) = true) ∧
    (∀ genP genS, tokenStoreInitV2 none none none genP genS = .ok (genP, genS)) := by
  refine ⟨?_, ?_, fun p s saved genP genS => rfl, fun genP genS => rfl⟩
  · intro p s h
    by_cases h1 : truthyS p = false ∨ p = some "default-key-change-me"
    · simp [tokenStoreInit, h1, exceptIsOk]
    · have h2 : truthyS s = false ∨ s = some "default-salt" := by tauto
      simp [tokenStoreInit, h1, h2, exceptIsOk]
  · intro p s h1 h2 h3 h4
    have hn1 : ¬ (truthyS p = false ∨ p = some "default-key-change-me") := by
      simp [h1, h2]
    have hn2 : ¬ (truthyS s = false ∨ s = some "default-salt") := by
      simp [h3, h4]
    simp [tokenStoreInit, hn1, hn2]

/-- C9 witness: the fail-fast conjunct applied to a missing secret, and
the success conjunct applied to configured values. -/
theorem store_init_fail_fast_witness :
    exceptIsOk (tokenStoreInit none (some "somesalt")) = false ∧
    tokenStoreInit (some "goodpass") (some "goodsalt") =
      .ok ("goodpass", "goodsalt") := by
  have h := store_init_fail_fast
  exact ⟨h.1 none (some "somesalt") (Or.inl rfl),
    h.2.1 (some "goodpass") (some "goodsalt") (by decide) (by decide) (by decide)
      (by decide)⟩

/-- C9 counterexample: the revised constructor with both secret and salt
missing (and no saved key file) succeeds with freshly generated values
instead of throwing. -/
theorem store_init_fail_fast_cex :
    tokenStoreInitV2 none none none "p0" "s0" = .ok ("p0", "s0") ∧
    truthyS none = false :=
  ⟨rfl, rfl⟩

/-- C10: `TokenStore.delete` resolves successfully on every unlink
outcome — a missing file is ignored without even a log line, any other
unlink failure is logged but swallowed, so deletion is idempotent —
whereas `load` maps a missing file to `none` but propagates every other
failure (including decrypt/parse failures) to the caller. -/
theorem delete_never_throws :
    (∀ o, (deleteModel o).1 = .ok ()) ∧
    ((deleteModel (.fail .enoent)).2 = false) ∧
    (∀ m, (deleteModel (.fail (.other m))).2 = true) ∧
    ((deleteModel .ok).2 = false) ∧
    (loadModel (.fail .enoent) = .ok none) ∧
    (∀ m, loadModel (.fail (.other m)) = .error (.other m)) ∧
    (∀ m, loadModel (.badData m) = .error (.other m)) := by
  refine ⟨?_, rfl, fun m => rfl, rfl, rfl, fun m => rfl, fun m => rfl⟩
  intro o
  rcases o with _ | e
  · rfl
  · rcases e with _ | m <;> rfl

end Janus
